import Mathlib

/-!
Shallow embedding of the DS18B20 1-Wire driver (src/pxt-ds18b20.cpp).

The bus line is abstracted in three complementary ways, each matching the
granularity of the code being modelled:
* an event trace (`Ev`) of pin writes, busy-wait delays and samples, with a
  `levelAt` semantics giving the line level at any microsecond offset —
  used for the bit-level slots inlined in `ds18b20WiteByte` and for
  `ds18b20ReadBit`;
* a sample stream `line : Nat → Bool` consumed one sample per
  `getDigitalValue` call — used for `ds18b20Check`, whose loops poll the
  line once per 1µs tick;
* an abstract monotone-free clock `clock : Nat → Int` giving the value of
  the n-th `system_timer_current_time_us()` call — used for `sleep_us`.

Machine integers are modelled as `Nat` with explicit `% 256` / `% 65536`
where the C types (`uint8_t`, `uint16_t`) truncate, and `Int` for the C
`int` clock values.  The C `float` results are modelled in `ℚ`: every
value the decoder produces is an integer multiple of 0.0625 = 1/16, which
binary floating point represents exactly, so `ℚ` is faithful.
-/

/-- One pin-level event of a 1-Wire slot: drive the line to a level
(`pin->setDigitalValue(v)`), busy-wait (`sleep_us(d)`), or sample the line
(`pin->getDigitalValue()`). -/
inductive Ev where
  | set (v : Nat)
  | sleep (d : Nat)
  | sample
deriving DecidableEq, Repr

/-- Total busy-wait time of a trace, in microseconds. -/
def totalDuration : List Ev → Nat
  | [] => 0
  | Ev.sleep d :: r => d + totalDuration r
  | _ :: r => totalDuration r

/-- Line level at time `t` (µs) into a trace, starting from level `lvl`
(the 1-Wire line idles high, so traces are entered with `lvl = 1`).
`set` changes the level instantaneously; `sleep d` holds it for `d` µs. -/
def levelAt : List Ev → Nat → Nat → Nat
  | [], lvl, _ => lvl
  | Ev.set v :: r, _, t => levelAt r v t
  | Ev.sleep d :: r, lvl, t => if t < d then lvl else levelAt r lvl (t - d)
  | Ev.sample :: r, lvl, t => levelAt r lvl t

/-- Times (µs offsets from trace start, accumulated at `t0`) at which the
trace samples the line. -/
def sampleTimes : List Ev → Nat → List Nat
  | [], _ => []
  | Ev.sample :: r, t => t :: sampleTimes r t
  | Ev.sleep d :: r, t => sampleTimes r (t + d)
  | Ev.set _ :: r, t => sampleTimes r t

/-- Body of the write loop in `ds18b20WiteByte` (src lines 40–53): for a 1
bit, drive low, wait 2µs, release high, wait 60µs; for a 0 bit, drive low,
wait 60µs, release high, wait 2µs. -/
def writeBitTrace (b : Nat) : List Ev :=
  if b ≠ 0 then
    [Ev.set 0, Ev.sleep 2, Ev.set 1, Ev.sleep 60]
  else
    [Ev.set 0, Ev.sleep 60, Ev.set 1, Ev.sleep 2]

/-- `ds18b20WiteByte` (src lines 36–55): for i = 0..7 emit the write slot
for bit `(data >> i) & 0x01` (LSB first). -/
def ds18b20WiteByte (data : Nat) : List Ev :=
  (List.range 8).flatMap fun i => writeBitTrace ((data >>> i) &&& 1)

/-- Pin activity of `ds18b20ReadBit` (src lines 71–87): drive low, wait
2µs, release, wait 5µs, sample, then pad with 60µs. -/
def ds18b20ReadBitTrace : List Ev :=
  [Ev.set 0, Ev.sleep 2, Ev.set 1, Ev.sleep 5, Ev.sample, Ev.sleep 60]

/-- Value computation of `ds18b20ReadBit` (src lines 80–83): bit = 1 if
the sampled level is nonzero, else 0. -/
def ds18b20ReadBit (lvl : Nat) : Nat :=
  if lvl ≠ 0 then 1 else 0

/-- `ds18b20ReadByte` (src lines 104–119): for i = 0..7, read a bit and
OR-accumulate it into position i (`data = data | (bit << i)`).  The bus is
abstracted as `sample i`, the level the i-th read slot samples. -/
def ds18b20ReadByte (sample : Nat → Nat) : Nat :=
  (List.range 8).foldl (fun data i => data ||| (ds18b20ReadBit (sample i) <<< i)) 0

/-- `ds18b20Rest` (src lines 131–137): reset pulse, 750µs low then release
and 15µs wait. -/
def ds18b20RestTrace : List Ev :=
  [Ev.set 0, Ev.sleep 750, Ev.set 1, Ev.sleep 15]

/-- One polling loop of `ds18b20Check` (src lines 149–155 and 161–167):
`while (getDigitalValue() == lvl) { state++; sleep_us(1); if (state >= bound) break; }`.
`line idx` is the level returned by the idx-th `getDigitalValue` call of
the whole check; the result is the pair (next sample index, final state).
`fuel = bound` always suffices: state grows by one per iteration and the
loop breaks when it reaches `bound`. -/
def pollLoop (line : Nat → Bool) (lvl : Bool) (bound : Nat) :
    Nat → Nat → Nat → Nat × Nat
  | 0, idx, state => (idx, state)
  | fuel + 1, idx, state =>
    if line idx = lvl then
      if bound ≤ state + 1 then (idx + 1, state + 1)
      else pollLoop line lvl bound fuel (idx + 1) (state + 1)
    else (idx + 1, state)

/-- `ds18b20Check` (src lines 145–172): poll while the line is high, up to
200 ticks, fail if the bound is reached; then poll while the line is low,
up to 240 ticks, fail if the bound is reached; otherwise succeed. -/
def ds18b20Check (line : Nat → Bool) : Bool :=
  let r1 := pollLoop line true 200 200 0 0
  if 200 ≤ r1.2 then false
  else
    let r2 := pollLoop line false 240 240 r1.1 0
    if 240 ≤ r2.2 then false
    else true

/-- Polling loop of `sleep_us` (src line 14–17): starting from sample
index `n`, return the index of the first clock sample whose difference
from `clock 0` reaches `us` (`none` if `fuel` polls do not suffice). -/
def sleepPoll (clock : Nat → Int) (us : Int) : Nat → Nat → Option Nat
  | 0, _ => none
  | fuel + 1, n =>
    if clock n - clock 0 < us then sleepPoll clock us fuel (n + 1)
    else some n

/-- `sleep_us` (src lines 9–18): `lasttime` is clock sample 0, the initial
`nowtime` is clock sample 1, and the loop re-samples until
`nowtime - lasttime ≥ us`.  Returns the index of the exiting sample. -/
def sleep_us (clock : Nat → Int) (us : Int) (fuel : Nat) : Option Nat :=
  sleepPoll clock us fuel 1

/-- `ds18b20GetTemperture` decode step (src lines 224–234).  `TH`, `TL`
are `uint8_t` (mod 256) and `temp` is `uint16_t` (mod 65536).  The source
statement `temp << 8;` at line 225 discards its result — it is an
expression statement with no assignment — so the embedding records the
shifted value but, like the source, never stores it: `temp` stays `TH`.
`(~temp) + 1` on `uint16_t` is `((65535 - temp) + 1) % 65536`, and the
float factors ±0.0625 are exactly ±1/16. -/
def ds18b20GetTemperture (TH TL : Nat) : ℚ :=
  let temp : Nat := TH % 256
  let _discardedShift : Nat := (temp <<< 8) % 65536
  let temp : Nat := (temp + TL % 256) % 65536
  if temp &&& 0xF800 = 0xF800 then
    (((65535 - temp + 1) % 65536 : Nat) : ℚ) * (-(1 / 16))
  else
    (temp : ℚ) * (1 / 16)

/-- High-level transaction operations, used to show what a transaction
performs after the presence check.  `check b` records that the presence
check ran and returned `b`. -/
inductive Op where
  | reset
  | check (result : Bool)
  | delay (us : Nat)
  | wByte (b : Nat)
  | rByte (b : Nat)
deriving DecidableEq, Repr

/-- `ds18b20Start` (src lines 181–190): reset, presence check (result
`presence` is produced but never branched on, exactly as in the source),
2µs settle, then Skip ROM (0xCC) and Convert T (0x44). -/
def ds18b20Start (presence : Bool) : List Op :=
  [Op.reset, Op.check presence, Op.delay 2, Op.wByte 0xCC, Op.wByte 0x44]

/-- Operation sequence of `ds18b20GetTemperture` (src lines 208–222):
start conversion, wait, then reset, presence check (result `p2`, again
never branched on), Skip ROM (0xCC), Read Scratchpad (0xBE), read TL,
wait, read TH. -/
def ds18b20GetTempertureOps (p1 p2 : Bool) (TL TH : Nat) : List Op :=
  ds18b20Start p1 ++ [Op.delay 100] ++
    [Op.reset, Op.check p2, Op.delay 2, Op.wByte 0xCC, Op.wByte 0xBE,
     Op.rByte TL, Op.delay 100, Op.rByte TH]

/-- micro:bit pins selectable by the `temperature` block. -/
inductive Pin where
  | P0 | P1 | P2 | P3 | P4 | P5 | P6 | P7 | P8
  | P9 | P10 | P11 | P12 | P13 | P14 | P15 | P16
deriving DecidableEq, Repr

/-- Pin binding of `temperature` (src lines 244–264): the switch maps
selectors 0–16 to P0–P16 and everything else to the default P8. -/
def temperaturePinOf (p : Int) : Pin :=
  if p = 0 then Pin.P0
  else if p = 1 then Pin.P1
  else if p = 2 then Pin.P2
  else if p = 3 then Pin.P3
  else if p = 4 then Pin.P4
  else if p = 5 then Pin.P5
  else if p = 6 then Pin.P6
  else if p = 7 then Pin.P7
  else if p = 8 then Pin.P8
  else if p = 9 then Pin.P9
  else if p = 10 then Pin.P10
  else if p = 11 then Pin.P11
  else if p = 12 then Pin.P12
  else if p = 13 then Pin.P13
  else if p = 14 then Pin.P14
  else if p = 15 then Pin.P15
  else if p = 16 then Pin.P16
  else Pin.P8

/-- `temperature` (src lines 242–266): bind the pin, then run the
transaction unconditionally and return the decoded reading (the scratchpad
bytes read back are abstracted as `TH`, `TL`). -/
def temperature (p : Int) (TH TL : Nat) : Pin × ℚ :=
  (temperaturePinOf p, ds18b20GetTemperture TH TL)

theorem pollLoop_stops (line : Nat → Bool) (lvl : Bool) (bound : Nat) :
    ∀ k fuel idx state, k < fuel → state + k < bound →
      (∀ j, j < k → line (idx + j) = lvl) → line (idx + k) ≠ lvl →
      pollLoop line lvl bound fuel idx state = (idx + k + 1, state + k) := by
  intro k
  induction k with
  | zero =>
    intro fuel idx state hf hb hpre hk
    match fuel, hf with
    | fuel + 1, _ =>
      have hc : ¬(line idx = lvl) := by simpa using hk
      simp only [pollLoop]
      rw [if_neg hc]
      norm_num
  | succ k ih =>
    intro fuel idx state hf hb hpre hk
    match fuel, hf with
    | fuel + 1, hf =>
      have hc : line idx = lvl := by simpa using hpre 0 (Nat.succ_pos k)
      have hbd : ¬(bound ≤ state + 1) := by omega
      simp only [pollLoop]
      rw [if_pos hc, if_neg hbd]
      have hrec := ih fuel (idx + 1) (state + 1) (by omega) (by omega)
        (fun j hj => by
          have h2 := hpre (j + 1) (by omega)
          rw [show idx + 1 + j = idx + (j + 1) by omega]
          exact h2)
        (by
          rw [show idx + 1 + k = idx + (k + 1) by omega]
          exact hk)
      rw [hrec]
      have e1 : idx + 1 + k + 1 = idx + (k + 1) + 1 := by omega
      have e2 : state + 1 + k = state + (k + 1) := by omega
      rw [e1, e2]

theorem pollLoop_breaks (line : Nat → Bool) (lvl : Bool) (bound : Nat) :
    ∀ m fuel idx state, 1 ≤ m → m ≤ fuel → state + m = bound →
      (∀ j, j < m → line (idx + j) = lvl) →
      pollLoop line lvl bound fuel idx state = (idx + m, bound) := by
  intro m
  induction m with
  | zero => omega
  | succ m ih =>
    intro fuel idx state _ hf hb hpre
    match fuel, hf with
    | fuel + 1, hf =>
      have hc : line idx = lvl := by simpa using hpre 0 (Nat.succ_pos m)
      simp only [pollLoop]
      rw [if_pos hc]
      rcases Nat.eq_zero_or_pos m with hm | hm
      · subst hm
        have hbd : bound ≤ state + 1 := by omega
        rw [if_pos hbd]
        have e2 : state + 1 = bound := by omega
        rw [e2]
      · have hbd : ¬(bound ≤ state + 1) := by omega
        rw [if_neg hbd]
        have hrec := ih fuel (idx + 1) (state + 1) hm (by omega) (by omega)
          (fun j hj => by
            have h2 := hpre (j + 1) (by omega)
            rw [show idx + 1 + j = idx + (j + 1) by omega]
            exact h2)
        rw [hrec]
        have e1 : idx + 1 + m = idx + (m + 1) := by omega
        rw [e1]

theorem pollLoop_congr (line other : Nat → Bool) (lvl : Bool) (bound : Nat) :
    ∀ fuel idx state, (∀ i, i < idx + fuel → line i = other i) →
      pollLoop line lvl bound fuel idx state = pollLoop other lvl bound fuel idx state := by
  intro fuel
  induction fuel with
  | zero => intro idx state _; rfl
  | succ fuel ih =>
    intro idx state hagree
    simp only [pollLoop]
    rw [hagree idx (by omega)]
    by_cases hl : other idx = lvl
    · rw [if_pos hl, if_pos hl]
      by_cases hbd : bound ≤ state + 1
      · rw [if_pos hbd, if_pos hbd]
      · rw [if_neg hbd, if_neg hbd]
        exact ih (idx + 1) (state + 1) (fun i hi => hagree i (by omega))
    · rw [if_neg hl, if_neg hl]

theorem pollLoop_fst_le (line : Nat → Bool) (lvl : Bool) (bound : Nat) :
    ∀ fuel idx state, (pollLoop line lvl bound fuel idx state).1 ≤ idx + fuel := by
  intro fuel
  induction fuel with
  | zero =>
    intro idx state
    show idx ≤ idx + 0
    omega
  | succ fuel ih =>
    intro idx state
    simp only [pollLoop]
    by_cases hl : line idx = lvl
    · rw [if_pos hl]
      by_cases hbd : bound ≤ state + 1
      · rw [if_pos hbd]
        show idx + 1 ≤ idx + (fuel + 1)
        omega
      · rw [if_neg hbd]
        have := ih (idx + 1) (state + 1)
        omega
    · rw [if_neg hl]
      show idx + 1 ≤ idx + (fuel + 1)
      omega

theorem ds18b20Check_eq (line : Nat → Bool) :
    ds18b20Check line =
      if 200 ≤ (pollLoop line true 200 200 0 0).2 then false
      else if 240 ≤ (pollLoop line false 240 240 (pollLoop line true 200 200 0 0).1 0).2 then
        false
      else true := rfl

theorem ds18b20Check_allHigh (line : Nat → Bool)
    (h : ∀ i, i < 200 → line i = true) : ds18b20Check line = false := by
  have h1 := pollLoop_breaks line true 200 200 200 0 0 (by omega) (by omega) (by omega)
    (fun j hj => by simpa using h j hj)
  rw [ds18b20Check_eq, h1]
  norm_num

theorem ds18b20Check_phase1 (line : Nat → Bool) (k : Nat) (hk : k < 200)
    (hpre : ∀ j, j < k → line j = true) (hlow : line k = false) :
    ds18b20Check line =
      if 240 ≤ (pollLoop line false 240 240 (k + 1) 0).2 then false else true := by
  have h1 := pollLoop_stops line true 200 k 200 0 0 hk (by omega)
    (fun j hj => by simpa using hpre j hj) (by simpa using hlow)
  rw [ds18b20Check_eq, h1]
  have hnk : ¬(200 ≤ (0 + k + 1, 0 + k).2) := by simpa using by omega
  rw [if_neg hnk]
  norm_num

theorem ds18b20Check_stuckLow (line : Nat → Bool) (k : Nat) (hk : k < 200)
    (hpre : ∀ j, j < k → line j = true) (hlow : line k = false)
    (hstuck : ∀ j, j < 240 → line (k + 1 + j) = false) :
    ds18b20Check line = false := by
  rw [ds18b20Check_phase1 line k hk hpre hlow]
  have h2 := pollLoop_breaks line false 240 240 240 (k + 1) 0 (by omega) (by omega) (by omega)
    (fun j hj => by simpa using hstuck j hj)
  rw [h2]
  norm_num

theorem ds18b20Check_success (line : Nat → Bool) (k m : Nat) (hk : k < 200)
    (hpre : ∀ j, j < k → line j = true) (hlow : line k = false) (hm : m < 240)
    (hpre2 : ∀ j, j < m → line (k + 1 + j) = false) (hhigh : line (k + 1 + m) = true) :
    ds18b20Check line = true := by
  rw [ds18b20Check_phase1 line k hk hpre hlow]
  have h2 := pollLoop_stops line false 240 m 240 (k + 1) 0 hm (by omega)
    (fun j hj => by simpa using hpre2 j hj) (by simp [hhigh])
  rw [h2]
  have hnm : ¬(240 ≤ (k + 1 + m + 1, 0 + m).2) := by simpa using by omega
  rw [if_neg hnm]

theorem ds18b20Check_true_exists (line : Nat → Bool) (ht : ds18b20Check line = true) :
    ∃ k, k < 200 ∧ (∀ j, j < k → line j = true) ∧ line k = false ∧
      ∃ m, m < 240 ∧ line (k + 1 + m) = true := by
  by_cases h1 : ∃ k, k < 200 ∧ line k = false
  · have hk0 := Nat.find_spec h1
    set k0 := Nat.find h1 with hk0def
    have hpre : ∀ j, j < k0 → line j = true := by
      intro j hj
      have hmin := Nat.find_min h1 hj
      push_neg at hmin
      cases hlj : line j with
      | false => exact absurd hlj (hmin (by omega))
      | true => rfl
    by_cases h2 : ∃ m, m < 240 ∧ line (k0 + 1 + m) = true
    · obtain ⟨m, hm, hhigh⟩ := h2
      exact ⟨k0, hk0.1, hpre, hk0.2, m, hm, hhigh⟩
    · push_neg at h2
      have hstuck : ∀ j, j < 240 → line (k0 + 1 + j) = false := by
        intro j hj
        cases hlj : line (k0 + 1 + j) with
        | false => rfl
        | true => exact absurd hlj (h2 j hj)
      have := ds18b20Check_stuckLow line k0 hk0.1 hpre hk0.2 hstuck
      rw [this] at ht
      exact absurd ht (by simp)
  · push_neg at h1
    have hall : ∀ i, i < 200 → line i = true := by
      intro i hi
      cases hli : line i with
      | false => exact absurd hli (h1 i hi)
      | true => rfl
    have := ds18b20Check_allHigh line hall
    rw [this] at ht
    exact absurd ht (by simp)

theorem ds18b20Check_exists_true (line : Nat → Bool) (k m : Nat) (hk : k < 200)
    (hpre : ∀ j, j < k → line j = true) (hlow : line k = false)
    (hm : m < 240) (hhigh : line (k + 1 + m) = true) :
    ds18b20Check line = true := by
  have h2 : ∃ j, line (k + 1 + j) = true := ⟨m, hhigh⟩
  have hm0 := Nat.find_spec h2
  set m0 := Nat.find h2 with hm0def
  have hm0le : m0 ≤ m := Nat.find_min' h2 hhigh
  have hpre2 : ∀ j, j < m0 → line (k + 1 + j) = false := by
    intro j hj
    have hmin := Nat.find_min h2 hj
    cases hlj : line (k + 1 + j) with
    | false => rfl
    | true => exact absurd hlj hmin
  exact ds18b20Check_success line k m0 hk hpre hlow (by omega) hpre2 hm0

theorem ds18b20Check_congr (line other : Nat → Bool)
    (h : ∀ i, i < 440 → line i = other i) :
    ds18b20Check line = ds18b20Check other := by
  have e1 : pollLoop line true 200 200 0 0 = pollLoop other true 200 200 0 0 :=
    pollLoop_congr line other true 200 200 0 0 (fun i hi => h i (by omega))
  have hle := pollLoop_fst_le other true 200 200 0 0
  have e2 : pollLoop line false 240 240 (pollLoop other true 200 200 0 0).1 0 =
      pollLoop other false 240 240 (pollLoop other true 200 200 0 0).1 0 :=
    pollLoop_congr line other false 240 240 (pollLoop other true 200 200 0 0).1 0
      (fun i hi => h i (by omega))
  rw [ds18b20Check_eq, ds18b20Check_eq, e1, e2]

/-- Claim C4: the presence check fails when the line stays high for 200 or
more 1µs polling ticks before going low; fails when, after going low at
tick `k`, the line stays low for 240 or more further ticks; succeeds
exactly when both phases complete within their bounds; and its result is
determined by the first 440 polling ticks. -/
theorem ds18b20Check_spec (line : Nat → Bool) :
    ((∀ i, i < 200 → line i = true) → ds18b20Check line = false) ∧
    (∀ k, k < 200 → (∀ j, j < k → line j = true) → line k = false →
      (∀ j, j < 240 → line (k + 1 + j) = false) → ds18b20Check line = false) ∧
    (ds18b20Check line = true ↔
      ∃ k, k < 200 ∧ (∀ j, j < k → line j = true) ∧ line k = false ∧
        ∃ m, m < 240 ∧ line (k + 1 + m) = true) ∧
    (∀ other : Nat → Bool, (∀ i, i < 440 → line i = other i) →
      ds18b20Check line = ds18b20Check other) := by
  refine ⟨ds18b20Check_allHigh line, ?_, ⟨ds18b20Check_true_exists line, ?_⟩, ?_⟩
  · intro k hk hpre hlow hstuck
    exact ds18b20Check_stuckLow line k hk hpre hlow hstuck
  · rintro ⟨k, hk, hpre, hlow, m, hm, hhigh⟩
    exact ds18b20Check_exists_true line k m hk hpre hlow hm hhigh
  · intro other hagree
    exact ds18b20Check_congr line other hagree

/-- Concrete instantiation of `ds18b20Check_spec`: a line going low at tick
2 and releasing immediately afterwards passes the presence check. -/
theorem ds18b20Check_spec_witness :
    ds18b20Check (fun i => decide (i ≠ 2)) = true := by
  have h := (ds18b20Check_spec (fun i => decide (i ≠ 2))).2.2.1
  exact h.mpr ⟨2, by norm_num, by decide, by decide, 0, by norm_num, by decide⟩

set_option maxRecDepth 400000 in
theorem writeByte_loopback_all :
    ∀ v, v < 256 →
      ds18b20ReadByte (fun i => levelAt (ds18b20WiteByte v) 1 (62 * i + 7)) = v := by
  decide

/-- Claim C5: on a loopback bus where the i-th read slot samples the write
trace of `ds18b20WiteByte v` at the sampling offset (7µs) into the i-th
62µs write slot, reading a byte right after writing `v` returns exactly
`v`: both loops run bit indices 0–7 LSB first and the read OR-accumulates
each bit into position i. -/
theorem writeByte_readByte_roundTrip (v : Nat) (h : v < 256) :
    ds18b20ReadByte (fun i => levelAt (ds18b20WiteByte v) 1 (62 * i + 7)) = v :=
  writeByte_loopback_all v h

/-- Concrete instantiation of `writeByte_readByte_roundTrip` at v = 0xA5. -/
theorem writeByte_readByte_roundTrip_witness :
    ds18b20ReadByte (fun i => levelAt (ds18b20WiteByte 165) 1 (62 * i + 7)) = 165 :=
  writeByte_readByte_roundTrip 165 (by norm_num)

/-- Claim C6: each write slot drives the line low, waits 2µs for a 1 bit
(60µs for a 0 bit), releases the line high, then waits the complementary
duration, so every slot's low-plus-high activity totals 62µs ≥ 60µs; the
line is low at the start of every write slot. -/
theorem writeBit_slot_spec (b : Nat) :
    (b ≠ 0 → writeBitTrace b = [Ev.set 0, Ev.sleep 2, Ev.set 1, Ev.sleep 60]) ∧
    (b = 0 → writeBitTrace b = [Ev.set 0, Ev.sleep 60, Ev.set 1, Ev.sleep 2]) ∧
    totalDuration (writeBitTrace b) = 62 ∧
    60 ≤ totalDuration (writeBitTrace b) ∧
    levelAt (writeBitTrace b) 1 0 = 0 := by
  by_cases hb : b = 0
  · subst hb
    exact ⟨fun h => absurd rfl h, fun _ => rfl, by decide, by decide, by decide⟩
  · refine ⟨fun _ => by simp [writeBitTrace, hb], fun h => absurd h hb, ?_, ?_, ?_⟩
    all_goals simp [writeBitTrace, hb, totalDuration, levelAt]

/-- Concrete instantiation of `writeBit_slot_spec` at both bit values. -/
theorem writeBit_slot_spec_witness :
    writeBitTrace 1 = [Ev.set 0, Ev.sleep 2, Ev.set 1, Ev.sleep 60] ∧
    writeBitTrace 0 = [Ev.set 0, Ev.sleep 60, Ev.set 1, Ev.sleep 2] :=
  ⟨(writeBit_slot_spec 1).1 (by norm_num), (writeBit_slot_spec 0).2.1 rfl⟩

/-- Claim C7: the read slot drives the line low for its first 2µs,
releases it, waits 5µs and samples at 7µs from slot start (within the
15µs window), pads the slot to 67µs total, and returns the sampled level
as the bit (1 for high, 0 for low). -/
theorem readBit_slot_spec :
    sampleTimes ds18b20ReadBitTrace 0 = [7] ∧
    (7 : Nat) ≤ 15 ∧
    (∀ t, t < 2 → levelAt ds18b20ReadBitTrace 1 t = 0) ∧
    totalDuration ds18b20ReadBitTrace = 67 ∧
    (∀ lvl, lvl ≠ 0 → ds18b20ReadBit lvl = 1) ∧
    ds18b20ReadBit 0 = 0 := by
  refine ⟨by decide, by decide, ?_, by decide, ?_, by decide⟩
  · intro t ht
    simp only [ds18b20ReadBitTrace, levelAt]
    rw [if_pos ht]
  · intro lvl h
    simp [ds18b20ReadBit, h]

/-- Concrete instantiation of `readBit_slot_spec`: the line is low 1µs in,
and a high sample reads as bit 1. -/
theorem readBit_slot_spec_witness :
    levelAt ds18b20ReadBitTrace 1 1 = 0 ∧ ds18b20ReadBit 5 = 1 :=
  ⟨readBit_slot_spec.2.2.1 1 (by norm_num), readBit_slot_spec.2.2.2.2.1 5 (by norm_num)⟩

/-- Claim C8: selectors 0–16 bind pins P0–P16, any selector outside that
range binds the default pin P8, and for every selector the entry point
still runs the transaction and returns a decoded reading. -/
theorem temperature_pin_spec :
    (∀ p : Int, p < 0 ∨ 16 < p → temperaturePinOf p = Pin.P8) ∧
    (temperaturePinOf 0 = Pin.P0 ∧ temperaturePinOf 1 = Pin.P1 ∧
     temperaturePinOf 2 = Pin.P2 ∧ temperaturePinOf 3 = Pin.P3 ∧
     temperaturePinOf 4 = Pin.P4 ∧ temperaturePinOf 5 = Pin.P5 ∧
     temperaturePinOf 6 = Pin.P6 ∧ temperaturePinOf 7 = Pin.P7 ∧
     temperaturePinOf 8 = Pin.P8 ∧ temperaturePinOf 9 = Pin.P9 ∧
     temperaturePinOf 10 = Pin.P10 ∧ temperaturePinOf 11 = Pin.P11 ∧
     temperaturePinOf 12 = Pin.P12 ∧ temperaturePinOf 13 = Pin.P13 ∧
     temperaturePinOf 14 = Pin.P14 ∧ temperaturePinOf 15 = Pin.P15 ∧
     temperaturePinOf 16 = Pin.P16) ∧
    (∀ p : Int, ∀ TH TL : Nat, (temperature p TH TL).2 = ds18b20GetTemperture TH TL) := by
  refine ⟨?_, by decide, fun p TH TL => rfl⟩
  intro p hp
  have h0 : p ≠ 0 := by omega
  have h1 : p ≠ 1 := by omega
  have h2 : p ≠ 2 := by omega
  have h3 : p ≠ 3 := by omega
  have h4 : p ≠ 4 := by omega
  have h5 : p ≠ 5 := by omega
  have h6 : p ≠ 6 := by omega
  have h7 : p ≠ 7 := by omega
  have h8 : p ≠ 8 := by omega
  have h9 : p ≠ 9 := by omega
  have h10 : p ≠ 10 := by omega
  have h11 : p ≠ 11 := by omega
  have h12 : p ≠ 12 := by omega
  have h13 : p ≠ 13 := by omega
  have h14 : p ≠ 14 := by omega
  have h15 : p ≠ 15 := by omega
  have h16 : p ≠ 16 := by omega
  simp [temperaturePinOf, h0, h1, h2, h3, h4, h5, h6, h7, h8, h9, h10,
    h11, h12, h13, h14, h15, h16]

/-- Concrete instantiation of `temperature_pin_spec`: out-of-range
selectors 17 and −1 both fall back to P8. -/
theorem temperature_pin_spec_witness :
    temperaturePinOf 17 = Pin.P8 ∧ temperaturePinOf (-1) = Pin.P8 :=
  ⟨temperature_pin_spec.1 17 (by norm_num), temperature_pin_spec.1 (-1) (by norm_num)⟩

theorem sleepPoll_sound (clock : Nat → Int) (us : Int) :
    ∀ fuel n k, sleepPoll clock us fuel n = some k →
      n ≤ k ∧ us ≤ clock k - clock 0 ∧ ∀ m, n ≤ m → m < k → clock m - clock 0 < us := by
  intro fuel
  induction fuel with
  | zero => intro n k h; simp [sleepPoll] at h
  | succ fuel ih =>
    intro n k h
    simp only [sleepPoll] at h
    by_cases hc : clock n - clock 0 < us
    · rw [if_pos hc] at h
      obtain ⟨h1, h2, h3⟩ := ih (n + 1) k h
      refine ⟨by omega, h2, ?_⟩
      intro m hm1 hm2
      rcases Nat.eq_or_lt_of_le hm1 with he | hl
      · rw [← he]
        exact hc
      · exact h3 m (by omega) hm2
    · rw [if_neg hc] at h
      have he := Option.some.inj h
      subst he
      exact ⟨Nat.le_refl n, by omega, fun m hm1 hm2 => absurd hm2 (by omega)⟩

theorem sleepPoll_complete (clock : Nat → Int) (us : Int) :
    ∀ fuel n m, n ≤ m → us ≤ clock m - clock 0 → m + 1 ≤ n + fuel →
      ∃ k, sleepPoll clock us fuel n = some k ∧ k ≤ m := by
  intro fuel
  induction fuel with
  | zero =>
    intro n m h1 h2 h3
    exact absurd h3 (by omega)
  | succ fuel ih =>
    intro n m h1 h2 h3
    by_cases hc : clock n - clock 0 < us
    · have hnm : n ≠ m := by
        intro he
        rw [he] at hc
        omega
      obtain ⟨k, hk, hkm⟩ := ih (n + 1) m (by omega) h2 (by omega)
      refine ⟨k, ?_, hkm⟩
      simp only [sleepPoll]
      rw [if_pos hc]
      exact hk
    · refine ⟨n, ?_, h1⟩
      simp only [sleepPoll]
      rw [if_neg hc]

/-- Claim C9: whenever `sleep_us` returns, at least `us` microseconds have
elapsed on the clock since the start sample `clock 0` (no undershoot), and
every earlier poll saw an elapsed time below `us` (active polling until
the difference reaches `us`); conversely, once some sample `m ≥ 1` has
elapsed time ≥ `us`, the loop returns by sample `m` given fuel ≥ m. -/
theorem sleep_us_spec (clock : Nat → Int) (us : Int) :
    (∀ fuel n, sleep_us clock us fuel = some n →
      us ≤ clock n - clock 0 ∧ 1 ≤ n ∧
        ∀ m, 1 ≤ m → m < n → clock m - clock 0 < us) ∧
    (∀ m, 1 ≤ m → us ≤ clock m - clock 0 → ∀ fuel, m ≤ fuel →
      ∃ n, sleep_us clock us fuel = some n ∧ n ≤ m) := by
  constructor
  · intro fuel n h
    obtain ⟨h1, h2, h3⟩ := sleepPoll_sound clock us fuel 1 n h
    exact ⟨h2, h1, h3⟩
  · intro m hm hus fuel hf
    exact sleepPoll_complete clock us fuel 1 m hm hus (by omega)

/-- Concrete instantiation of `sleep_us_spec`: with the identity clock and
us = 5, the poll exits at sample 5, whose elapsed time is at least 5. -/
theorem sleep_us_spec_witness :
    (5 : Int) ≤ ((5 : Nat) : Int) - ((0 : Nat) : Int) :=
  ((sleep_us_spec (fun i => (i : Int)) 5).1 10 5 (by decide)).1

set_option maxRecDepth 20000 in
theorem land_F800_small : ∀ t, t < 511 → t &&& 63488 = 0 := by decide

theorem ds18b20GetTemperture_eq (TH TL : Nat) :
    ds18b20GetTemperture TH TL =
      if ((TH % 256 + TL % 256) % 65536) &&& 63488 = 63488 then
        (((65535 - (TH % 256 + TL % 256) % 65536 + 1) % 65536 : Nat) : ℚ) * (-(1 / 16))
      else (((TH % 256 + TL % 256) % 65536 : Nat) : ℚ) * (1 / 16) := rfl

/-- Claim C10: because `temp << 8;` discards its result, the decoder
returns `(TH + TL) * 0.0625`; `temp` is at most 510, so the sign branch
guard `(temp & 0xF800) == 0xF800` never fires and the result is always
between 0 and 31.875 = 255/8. -/
theorem ds18b20GetTemperture_spec (TH TL : Nat) (h1 : TH < 256) (h2 : TL < 256) :
    ds18b20GetTemperture TH TL = ((TH + TL : Nat) : ℚ) * (1 / 16) ∧
    (TH % 256 + TL % 256) % 65536 ≤ 510 ∧
    ((TH % 256 + TL % 256) % 65536) &&& 63488 ≠ 63488 ∧
    0 ≤ ds18b20GetTemperture TH TL ∧
    ds18b20GetTemperture TH TL ≤ 255 / 8 := by
  have hm1 : TH % 256 = TH := Nat.mod_eq_of_lt h1
  have hm2 : TL % 256 = TL := Nat.mod_eq_of_lt h2
  have hsum : TH + TL < 511 := by omega
  have htmp : (TH % 256 + TL % 256) % 65536 = TH + TL := by
    rw [hm1, hm2, Nat.mod_eq_of_lt (by omega)]
  have hland : ((TH % 256 + TL % 256) % 65536) &&& 63488 = 0 := by
    rw [htmp]
    exact land_F800_small (TH + TL) hsum
  have hneq : ((TH % 256 + TL % 256) % 65536) &&& 63488 ≠ 63488 := by
    rw [hland]
    norm_num
  have heq : ds18b20GetTemperture TH TL = ((TH + TL : Nat) : ℚ) * (1 / 16) := by
    rw [ds18b20GetTemperture_eq, if_neg hneq, htmp]
  refine ⟨heq, by omega, hneq, ?_, ?_⟩
  · rw [heq]
    positivity
  · rw [heq]
    have hc : ((TH + TL : Nat) : ℚ) ≤ 510 := by
      exact_mod_cast (by omega : TH + TL ≤ 510)
    linarith

/-- Concrete instantiation of `ds18b20GetTemperture_spec` at the bytes
TH = 0x07, TL = 0xD0. -/
theorem ds18b20GetTemperture_spec_witness :
    ds18b20GetTemperture 7 208 = ((7 + 208 : Nat) : ℚ) * (1 / 16) :=
  (ds18b20GetTemperture_spec 7 208 (by norm_num) (by norm_num)).1

/-- Claim C1 is refuted by the code: with TH = 0x07, TL = 0xD0 the decoder
returns 215/16 = 13.4375, not 125, because `temp << 8;` discards its
result; the TH = 0 example still decodes to 6.25 since shifting 0 makes no
difference there. -/
theorem decode_positive_claim_fails :
    ds18b20GetTemperture 7 208 = (215 : ℚ) * (1 / 16) ∧
    (215 : ℚ) * (1 / 16) ≠ 125 ∧
    ds18b20GetTemperture 0 100 = (100 : ℚ) * (1 / 16) ∧
    (100 : ℚ) * (1 / 16) = 25 / 4 := by
  refine ⟨?_, by norm_num, ?_, by norm_num⟩
  · rw [ds18b20GetTemperture_eq, if_neg (by decide)]
    norm_num
  · rw [ds18b20GetTemperture_eq, if_neg (by decide)]
    norm_num

/-- Claim C2 is refuted by the code: TH = 0xFF, TL = 0x9C decodes to
411/16 = +25.6875, not −6.25, and TH = 0xFF, TL = 0xF8 decodes to
503/16 = +31.4375, not −0.5: with `temp << 8;` discarded, `temp` is at
most 510 and the sign branch never fires. -/
theorem decode_negative_claim_fails :
    ds18b20GetTemperture 255 156 = (411 : ℚ) * (1 / 16) ∧
    (411 : ℚ) * (1 / 16) ≠ -(25 / 4) ∧
    ds18b20GetTemperture 255 248 = (503 : ℚ) * (1 / 16) ∧
    (503 : ℚ) * (1 / 16) ≠ -(1 / 2) := by
  refine ⟨?_, by norm_num, ?_, by norm_num⟩
  · rw [ds18b20GetTemperture_eq, if_neg (by decide)]
    norm_num
  · rw [ds18b20GetTemperture_eq, if_neg (by decide)]
    norm_num

set_option maxRecDepth 100000 in
/-- Claim C3 is refuted by the code: with a line that never goes low the
presence check fails, yet the conversion-start transaction still writes
Skip ROM (0xCC) and Convert T (0x44), and the scratchpad transaction still
writes Read Scratchpad (0xBE), reads both scratchpad bytes and decodes a
temperature from them. -/
theorem transaction_ignores_presence_failure :
    ds18b20Check (fun _ => true) = false ∧
    Op.wByte 0xCC ∈ ds18b20Start (ds18b20Check (fun _ => true)) ∧
    Op.wByte 0x44 ∈ ds18b20Start (ds18b20Check (fun _ => true)) ∧
    Op.wByte 0xBE ∈
      ds18b20GetTempertureOps (ds18b20Check (fun _ => true)) (ds18b20Check (fun _ => true)) 1 2 ∧
    Op.rByte 1 ∈
      ds18b20GetTempertureOps (ds18b20Check (fun _ => true)) (ds18b20Check (fun _ => true)) 1 2 ∧
    Op.rByte 2 ∈
      ds18b20GetTempertureOps (ds18b20Check (fun _ => true)) (ds18b20Check (fun _ => true)) 1 2 ∧
    ds18b20GetTemperture 2 1 = (3 : ℚ) * (1 / 16) := by
  refine ⟨by decide, by decide, by decide, by decide, by decide, by decide, ?_⟩
  rw [ds18b20GetTemperture_eq, if_neg (by decide)]
  norm_num
